import Mathlib

/-!
Verification of the bq-rust boolean-query matcher (src/lib.rs, src/parser.rs,
src/matcher.rs) as a shallow embedding.

Modelling conventions:
* Strings are modelled as lists of ASCII codes (`List Nat`), following the
  spec's scoping decision (§9: "scope this design to ASCII/byte-wise case
  folding"); for ASCII input the Rust `chars()` iteration and the UTF-8 byte
  view coincide, so a single list serves for both.
* Rust `Vec` indexing `v[i]` is fallible: an out-of-bounds access is a panic,
  modelled as `none`.  An `i64` index is cast `as usize`, so a negative index
  wraps to at least 2^63 and is out of bounds for every vector arising here;
  `idxI` therefore returns `none` on negative indices.
* Loops whose termination is not structural carry an explicit fuel parameter;
  every caller passes fuel that is proved (or, for the bounded table loop,
  evident) sufficient, and exhaustion is also mapped to `none`.
* Fallible computation that can also report a user error has the type
  `Option (Except ParsingError _)`: `none` is a panic, `some (.error e)` a
  returned `ParsingError`, `some (.ok x)` a normal result.
-/

namespace BqRust

/-- `v[i]` for a Rust `i64` index cast `as usize`: negative indices wrap far
out of bounds and panic, non-negative ones are ordinary fallible lookups. -/
def idxI (l : List α) (i : Int) : Option α :=
  if i < 0 then none else l[i.toNat]?

/-- `v[i] = x` for a `usize` index: panics (returns `none`) when out of bounds. -/
def setIdx (l : List α) (i : Nat) (v : α) : Option (List α) :=
  if i < l.length then some (l.set i v) else none

/-- ASCII lowercasing of one byte, the byte-wise reading of Rust
`str::to_lowercase` on ASCII text (spec §9 scopes case folding to ASCII). -/
def lowerByte (b : Nat) : Nat :=
  if 65 ≤ b ∧ b ≤ 90 then b + 32 else b

/-- `s.to_lowercase().into_bytes()` on ASCII text. -/
def lowerBytes (s : List Nat) : List Nat :=
  s.map lowerByte

/-- `Token` from src/parser.rs. -/
inductive Token
  | AND
  | OR
  | NOT
  | LParen
  | RParen
  | Keyword (s : List Nat)
deriving DecidableEq, Repr

/-- `ParsingError` from src/parser.rs: a static message string. -/
structure ParsingError where
  msg : String
deriving DecidableEq, Repr

/-- `Node` from src/parser.rs: the expression tree.  A `Leaf` stores the
keyword and its precomputed jump table. -/
inductive Node
  | AND (a b : Node)
  | OR (a b : Node)
  | NOT (a : Node)
  | Leaf (s : List Nat) (table : List Int)
deriving DecidableEq, Repr

/-- The character-scan loop of `tokenise_query` (src/parser.rs lines 75-116):
state is the remaining input, the `quotes` flag, the accumulator
`current_token`, and the tokens pushed so far.  Reaching end of input returns
the tokens accumulated so far even when `quotes` is still set. -/
def tokLoop : List Nat → Bool → List Nat → List Token → Except ParsingError (List Token)
  | [], _, _, acc => Except.ok acc
  | c :: cs, true, cur, acc =>
    if c = 34 then tokLoop cs false [] (acc ++ [Token.Keyword cur])
    else tokLoop cs true (cur ++ [c]) acc
  | c :: cs, false, cur, acc =>
    if c = 34 then tokLoop cs true [] acc
    else if (97 ≤ c ∧ c ≤ 122) ∨ (65 ≤ c ∧ c ≤ 90) then
      Except.error ⟨"Found an alphabetic character when either a quote, parenthesis, or operator was expected"⟩
    else if c = 38 then tokLoop cs false cur (acc ++ [Token.AND])
    else if c = 124 then tokLoop cs false cur (acc ++ [Token.OR])
    else if c = 33 then tokLoop cs false cur (acc ++ [Token.NOT])
    else if c = 40 then tokLoop cs false cur (acc ++ [Token.LParen])
    else if c = 41 then tokLoop cs false cur (acc ++ [Token.RParen])
    else if c = 32 ∨ c = 9 ∨ c = 10 ∨ c = 13 then tokLoop cs false cur acc
    else Except.error ⟨"found an unexpected character"⟩

/-- `tokenise_query` from src/parser.rs (lines 66-119). -/
def tokenise_query (query : List Nat) : Except ParsingError (List Token) :=
  tokLoop query false [] []

/-- The inner `while` of `kmp_table` (src/parser.rs line 258):
`while (j > -1) && (s1[(j+1) as usize] != s1[(j+1) as usize]) { j = next[j as usize]; }`.
The `&&` is short-circuiting, so the index is only read when `j > -1`; both
sides of `!=` read the same location, as in the source. -/
def ktFall (s1 : List Nat) (next : List Int) : Nat → Int → Option Int
  | 0, _ => none
  | fuel + 1, j =>
    if j > -1 then
      match idxI s1 (j + 1) with
      | none => none
      | some b =>
        if b ≠ b then
          match idxI next j with
          | none => none
          | some j2 => ktFall s1 next fuel j2
        else some j
    else some j

/-- The outer `while i < s1.len()` loop of `kmp_table` (src/parser.rs lines
256-271), with fuel bounding the iteration count (each iteration increments
`i`, so `s1.length` fuel is enough from `i = 1`). -/
def ktLoop (s1 : List Nat) : Nat → Nat → Int → List Int → Option (List Int)
  | 0, i, _, next => if i < s1.length then none else some next
  | fuel + 1, i, j, next =>
    if i < s1.length then
      match ktFall s1 next (s1.length + 1) j with
      | none => none
      | some j1 =>
        match s1[i]?, idxI s1 (j1 + 1) with
        | some bi, some bj =>
          let j2 := if bi = bj then j1 + 1 else j1
          match setIdx next i j2 with
          | none => none
          | some next2 => ktLoop s1 fuel (i + 1) j2 next2
        | _, _ => none
    else some next

/-- `kmp_table` from src/parser.rs (lines 241-274): `next` starts as
`vec![0; s1.len()]`, then `next[0] = -1` (a panic on the empty keyword), then
the scan from `i = 1` with `j = -1`. -/
def kmp_table (s1 : List Nat) : Option (List Int) :=
  match setIdx (List.replicate s1.length 0) 0 (-1) with
  | none => none
  | some next0 => ktLoop s1 s1.length 1 (-1) next0

/-- The inner `while` of `kmp` (src/matcher.rs line 67):
`while (j > -1) & (s1[(j+1) as usize] != s2[i as usize]) { j = table[j as usize]; }`.
The non-short-circuiting `&` evaluates `s1[(j+1) as usize]` even when
`j ≤ -1`, so that read happens before the guard is decided. -/
def kmpFall (table : List Int) (s1 : List Nat) (c : Nat) : Nat → Int → Option Int
  | 0, _ => none
  | fuel + 1, j =>
    match idxI s1 (j + 1) with
    | none => none
    | some b =>
      if j > -1 ∧ b ≠ c then
        match idxI table j with
        | none => none
        | some j2 => kmpFall table s1 c fuel j2
      else some j

/-- The outer `while i < s2.len()` loop of `kmp` (src/matcher.rs lines 65-83),
structural on the remaining haystack; the fallback fuel `s1.length + 1`
covers any strictly decreasing fallback chain from `j ≤ s1.length - 2`. -/
def kmpLoop (table : List Int) (s1 : List Nat) : List Nat → Int → Option Bool
  | [], _ => some false
  | c :: rest, j =>
    match kmpFall table s1 c (s1.length + 1) j with
    | none => none
    | some j1 =>
      match idxI s1 (j1 + 1) with
      | none => none
      | some b =>
        let j2 := if c = b then j1 + 1 else j1
        if j2 = (s1.length : Int) - 1 then some true
        else kmpLoop table s1 rest j2

/-- `kmp` from src/matcher.rs (lines 50-86): both the needle and the haystack
are lowercased, then scanned with `i = 0`, `j = -1`. -/
def kmp (table : List Int) (s1 s2 : List Nat) : Option Bool :=
  kmpLoop table (lowerBytes s1) (lowerBytes s2) (-1)

/-- `match_bquery` from src/matcher.rs (lines 31-41); `&&` and `||` are
short-circuiting. -/
def match_bquery : Node → List Nat → Option Bool
  | Node.AND a b, s =>
    match match_bquery a s with
    | none => none
    | some ba => if ba then match_bquery b s else some false
  | Node.OR a b, s =>
    match match_bquery a s with
    | none => none
    | some ba => if ba then some true else match_bquery b s
  | Node.NOT a, s =>
    match match_bquery a s with
    | none => none
    | some ba => some (!ba)
  | Node.Leaf keyword jumptable, s => kmp jumptable keyword s

mutual

/-- `build_query` from src/parser.rs (lines 126-155): parse an AND-tier group,
then fold `OR` chains left-to-right.  State passing replaces the
`&mut VecDeque`; the pair carries the unconsumed tokens. -/
def build_query : Nat → List Token → Option (Except ParsingError (Node × List Token))
  | 0, _ => none
  | fuel + 1, ts =>
    match build_or_group fuel ts with
    | none => none
    | some (Except.error e) => some (Except.error e)
    | some (Except.ok (left, rest)) => build_query_loop fuel left rest

/-- The `while let Some(t) = tokens.pop_front()` loop of `build_query`:
an `OR` token continues the fold, any other token is pushed back and the
accumulated node returned. -/
def build_query_loop : Nat → Node → List Token → Option (Except ParsingError (Node × List Token))
  | 0, _, _ => none
  | fuel + 1, left, ts =>
    match ts with
    | [] => some (Except.ok (left, []))
    | Token.OR :: rest =>
      match build_or_group fuel rest with
      | none => none
      | some (Except.error e) => some (Except.error e)
      | some (Except.ok (right, rest2)) => build_query_loop fuel (Node.OR left right) rest2
    | t :: rest => some (Except.ok (left, t :: rest))

/-- `build_or_group` from src/parser.rs (lines 157-186): parse a factor, then
fold `AND` chains left-to-right. -/
def build_or_group : Nat → List Token → Option (Except ParsingError (Node × List Token))
  | 0, _ => none
  | fuel + 1, ts =>
    match build_and_group fuel ts with
    | none => none
    | some (Except.error e) => some (Except.error e)
    | some (Except.ok (left, rest)) => build_or_group_loop fuel left rest

/-- The `while let Some(t) = tokens.pop_front()` loop of `build_or_group`. -/
def build_or_group_loop : Nat → Node → List Token → Option (Except ParsingError (Node × List Token))
  | 0, _, _ => none
  | fuel + 1, left, ts =>
    match ts with
    | [] => some (Except.ok (left, []))
    | Token.AND :: rest =>
      match build_and_group fuel rest with
      | none => none
      | some (Except.error e) => some (Except.error e)
      | some (Except.ok (right, rest2)) => build_or_group_loop fuel (Node.AND left right) rest2
    | t :: rest => some (Except.ok (left, t :: rest))

/-- `build_and_group` from src/parser.rs (lines 188-238): a single factor —
`NOT` factor, a keyword leaf (building its jump table, which panics on an
empty keyword), or a parenthesised sub-query requiring a closing paren. -/
def build_and_group : Nat → List Token → Option (Except ParsingError (Node × List Token))
  | 0, _ => none
  | fuel + 1, ts =>
    match ts with
    | [] => some (Except.error ⟨"Unexpected end of input"⟩)
    | Token.NOT :: rest =>
      match build_and_group fuel rest with
      | none => none
      | some (Except.error e) => some (Except.error e)
      | some (Except.ok (node, rest2)) => some (Except.ok (Node.NOT node, rest2))
    | Token.Keyword s :: rest =>
      match kmp_table s with
      | none => none
      | some table => some (Except.ok (Node.Leaf s table, rest))
    | Token.LParen :: rest =>
      match build_query fuel rest with
      | none => none
      | some (Except.error e) => some (Except.error e)
      | some (Except.ok (expr, rest2)) =>
        match rest2 with
        | Token.RParen :: rest3 => some (Except.ok (expr, rest3))
        | _ => some (Except.error ⟨"Expected closing parentheses after expression"⟩)
    | _ :: _ => some (Except.error ⟨"Unexpected token "⟩)

end

/-- `build_bquery` from src/parser.rs (lines 121-124): returns `build_query`'s
node and drops the deque, leftover tokens included.  The fuel bounds the
total number of parser calls; each call either consumes a token before
recursing or moves down the fixed three-tier chain, so `3 * n + 3` covers a
token list of length `n`. -/
def build_bquery (ts : List Token) : Option (Except ParsingError Node) :=
  match build_query (3 * ts.length + 3) ts with
  | none => none
  | some (Except.error e) => some (Except.error e)
  | some (Except.ok (n, _)) => some (Except.ok n)

/-- `parser::from` (src/parser.rs lines 57-64): tokenise then parse. -/
def parser_from (s : List Nat) : Option (Except ParsingError Node) :=
  match tokenise_query s with
  | Except.ok ts => build_bquery ts
  | Except.error e => some (Except.error e)

/-- `Matcher` from src/matcher.rs: holds a single query tree. -/
structure Matcher where
  query : Node
deriving DecidableEq, Repr

/-- `Matcher::from` (src/matcher.rs lines 14-21). -/
def matcherFrom (s : List Nat) : Option (Except ParsingError Matcher) :=
  match parser_from s with
  | none => none
  | some (Except.ok q) => some (Except.ok ⟨q⟩)
  | some (Except.error e) => some (Except.error e)

/-- `Matcher::query` (src/matcher.rs lines 24-27). -/
def matcherQuery (m : Matcher) (s : List Nat) : Option Bool :=
  match_bquery m.query s

/-- Comparison definition for the refinement claim about `kmp_table`: the
outer scan with the inner fallback loop removed — `j` is carried forward
unchanged and only increments on `s1[i] == s1[j+1]`. -/
def ktLoopNF (s1 : List Nat) : Nat → Nat → Int → List Int → Option (List Int)
  | 0, i, _, next => if i < s1.length then none else some next
  | fuel + 1, i, j, next =>
    if i < s1.length then
      match s1[i]?, idxI s1 (j + 1) with
      | some bi, some bj =>
        let j2 := if bi = bj then j + 1 else j
        match setIdx next i j2 with
        | none => none
        | some next2 => ktLoopNF s1 fuel (i + 1) j2 next2
      | _, _ => none
    else some next

/-- Comparison definition for the refinement claim: `kmp_table` with the dead
inner fallback loop removed, a single greedy scan. -/
def kmp_table_nofall (s1 : List Nat) : Option (List Int) :=
  match setIdx (List.replicate s1.length 0) 0 (-1) with
  | none => none
  | some next0 => ktLoopNF s1 s1.length 1 (-1) next0

/-- The shape invariant that makes `kmp`'s fallback terminate and stay in
bounds: every stored jump target is at least `-1` and strictly below its own
index. -/
def goodTable (t : List Int) : Prop :=
  ∀ (i : Nat) (v : Int), t[i]? = some v → -1 ≤ v ∧ v < (i : Int)

/-- Every leaf of the tree stores exactly the jump table that `kmp_table`
successfully computed for its keyword. -/
def NodeWF : Node → Prop
  | Node.AND a b => NodeWF a ∧ NodeWF b
  | Node.OR a b => NodeWF a ∧ NodeWF b
  | Node.NOT a => NodeWF a
  | Node.Leaf s table => kmp_table s = some table

/-! ### Basic lemmas -/

theorem idxI_pos (l : List α) (i : Int) (h0 : 0 ≤ i) (h : i.toNat < l.length) :
    idxI l i = some l[i.toNat] := by
  unfold idxI
  rw [if_neg (by omega), List.getElem?_eq_getElem h]

theorem lowerByte_idem (b : Nat) : lowerByte (lowerByte b) = lowerByte b := by
  unfold lowerByte
  split
  · next h => simp only [if_neg (by omega : ¬(65 ≤ b + 32 ∧ b + 32 ≤ 90))]
  · rfl

theorem lowerBytes_idem (s : List Nat) : lowerBytes (lowerBytes s) = lowerBytes s := by
  unfold lowerBytes
  rw [List.map_map]
  exact List.map_congr_left fun b _ => lowerByte_idem b

theorem lowerBytes_length (s : List Nat) : (lowerBytes s).length = s.length :=
  List.length_map s lowerByte

/-! ### Claim theorems: concrete behaviour -/

/-- C1: the claim fails on the code.  `kmp_table`'s inner fallback guard
compares `s1[(j+1)]` with itself, so the table for the keyword `aabb` comes
out as `[-1, 0, 0, 0]` (the correct failure table is `[-1, 0, -1, -1]`), and
the compiled single-keyword query `"aabb"` matches the text `aababb` even
though `aabb` does not occur as a contiguous substring of it (both sides
already lowercase). -/
theorem c1_kmp_not_substring_failing_input :
    matcherFrom [34, 97, 97, 98, 98, 34] =
      some (Except.ok ⟨Node.Leaf [97, 97, 98, 98] [-1, 0, 0, 0]⟩) ∧
    matcherQuery ⟨Node.Leaf [97, 97, 98, 98] [-1, 0, 0, 0]⟩ [97, 97, 98, 97, 98, 98] =
      some true ∧
    ¬ (lowerBytes [97, 97, 98, 98] <:+: lowerBytes [97, 97, 98, 97, 98, 98]) :=
  ⟨rfl, rfl, by decide⟩

/-- C2: the claim fails on the code.  Compiling the query consisting of a
single empty quoted keyword, `compile("\"\"")` (bytes `[34, 34]`), panics:
`kmp_table` executes `next[0] = -1` on an empty vector. -/
theorem c2_empty_keyword_panics :
    matcherFrom [34, 34] = none := rfl

/-- C3: the claim fails on the code.  Reaching end of input inside quotes is
not reported: `tokenise_query` on `"a` (bytes `[34, 97]`) returns `Ok` with
the keyword silently dropped, so `compile("\"a")` fails only later with
"Unexpected end of input"; worse, `compile("\"a\" \"b")` succeeds outright,
dropping the unterminated keyword `b`. -/
theorem c3_unterminated_quote_silently_dropped :
    tokenise_query [34, 97] = Except.ok [] ∧
    matcherFrom [34, 97] = some (Except.error ⟨"Unexpected end of input"⟩) ∧
    tokenise_query [34, 97, 34, 32, 34, 98] = Except.ok [Token.Keyword [97]] ∧
    matcherFrom [34, 97, 34, 32, 34, 98] = some (Except.ok ⟨Node.Leaf [97] [-1]⟩) :=
  ⟨rfl, rfl, rfl, rfl⟩

/-- C4 counterexample: the claim fails on the code.  The query
`("a" | "b") & "c")` — with a trailing unmatched right parenthesis — compiles
successfully to `And(Or(a, b), c)` instead of returning an error. -/
theorem c4_counterexample_trailing_tokens_accepted :
    matcherFrom [40, 34, 97, 34, 32, 124, 32, 34, 98, 34, 41, 32, 38, 32, 34, 99, 34, 41] =
      some (Except.ok ⟨Node.AND (Node.OR (Node.Leaf [97] [-1]) (Node.Leaf [98] [-1]))
        (Node.Leaf [99] [-1])⟩) := rfl

/-- C4 (amended): `build_bquery` does not require the whole token sequence to
be consumed: `build_query` stops at the trailing `RParen`, leaving it
unconsumed, and `build_bquery` returns the parsed tree while discarding the
leftover token. -/
theorem c4_amended_leftover_tokens_ignored :
    build_query 27 [Token.LParen, Token.Keyword [97], Token.OR, Token.Keyword [98],
        Token.RParen, Token.AND, Token.Keyword [99], Token.RParen] =
      some (Except.ok (Node.AND (Node.OR (Node.Leaf [97] [-1]) (Node.Leaf [98] [-1]))
        (Node.Leaf [99] [-1]), [Token.RParen])) ∧
    build_bquery [Token.LParen, Token.Keyword [97], Token.OR, Token.Keyword [98],
        Token.RParen, Token.AND, Token.Keyword [99], Token.RParen] =
      some (Except.ok (Node.AND (Node.OR (Node.Leaf [97] [-1]) (Node.Leaf [98] [-1]))
        (Node.Leaf [99] [-1]))) :=
  ⟨rfl, rfl⟩

/-- C5: the claim fails on the code.  Only `"` opens a keyword literal; a
single quote `'` outside quotes falls through to the catch-all arm of the
tokenizer and is rejected as an unexpected character.  In particular the
query of the repository's own `casesens` test, `('hello'|'hi'|'ho') & 'there'`,
fails to compile even though the test unwraps it. -/
theorem c5_single_quote_rejected :
    tokenise_query [40, 39, 104, 101, 108, 108, 111, 39, 124, 39, 104, 105, 39, 124,
        39, 104, 111, 39, 41, 32, 38, 32, 39, 116, 104, 101, 114, 101, 39] =
      Except.error ⟨"found an unexpected character"⟩ ∧
    matcherFrom [40, 39, 104, 101, 108, 108, 111, 39, 124, 39, 104, 105, 39, 124,
        39, 104, 111, 39, 41, 32, 38, 32, 39, 116, 104, 101, 114, 101, 39] =
      some (Except.error ⟨"found an unexpected character"⟩) :=
  ⟨rfl, rfl⟩

/-- C6 counterexample: the claim's witnessing example fails on the code.  The
query `!"a" & "b"` does parse with NOT binding tighter than AND — the tree is
`And(Not(Leaf a), Leaf b)` — but the text `b only, no a-word` contains the
letter `a` (inside `a-word`), so the keyword `a` matches, `!"a"` is false,
and the whole query evaluates to `false`, not `true`. -/
theorem c6_counterexample_not_example_false :
    matcherFrom [33, 34, 97, 34, 32, 38, 32, 34, 98, 34] =
      some (Except.ok ⟨Node.AND (Node.NOT (Node.Leaf [97] [-1])) (Node.Leaf [98] [-1])⟩) ∧
    matcherQuery ⟨Node.AND (Node.NOT (Node.Leaf [97] [-1])) (Node.Leaf [98] [-1])⟩
        [98, 32, 111, 110, 108, 121, 44, 32, 110, 111, 32, 97, 45, 119, 111, 114, 100] =
      some false :=
  ⟨rfl, rfl⟩

/-- C6 (amended): NOT binds tighter than AND — `!"a" & "b"` parses as
`And(Not(Leaf a), Leaf b)`, the negation applying only to `"a"` — and on a
text that contains `b` but no `a`, such as `b only`, the query evaluates to
`true`. -/
theorem c6_amended_not_binds_tighter :
    matcherFrom [33, 34, 97, 34, 32, 38, 32, 34, 98, 34] =
      some (Except.ok ⟨Node.AND (Node.NOT (Node.Leaf [97] [-1])) (Node.Leaf [98] [-1])⟩) ∧
    Node.AND (Node.NOT (Node.Leaf [97] [-1])) (Node.Leaf [98] [-1]) ≠
      Node.NOT (Node.AND (Node.Leaf [97] [-1]) (Node.Leaf [98] [-1])) ∧
    matcherQuery ⟨Node.AND (Node.NOT (Node.Leaf [97] [-1])) (Node.Leaf [98] [-1])⟩
        [98, 32, 111, 110, 108, 121] = some true :=
  ⟨rfl, by decide, rfl⟩

/-- C7: operator precedence is NOT > AND > OR with left association:
`"a" | "b" & "c"` parses to `Or(Leaf a, And(Leaf b, Leaf c))` — which differs
from `And(Or(Leaf a, Leaf b), Leaf c)` — and chained AND (resp. OR) tokens
fold left-to-right into nested nodes. -/
theorem c7_precedence_and_left_association :
    matcherFrom [34, 97, 34, 32, 124, 32, 34, 98, 34, 32, 38, 32, 34, 99, 34] =
      some (Except.ok ⟨Node.OR (Node.Leaf [97] [-1])
        (Node.AND (Node.Leaf [98] [-1]) (Node.Leaf [99] [-1]))⟩) ∧
    Node.OR (Node.Leaf [97] [-1]) (Node.AND (Node.Leaf [98] [-1]) (Node.Leaf [99] [-1])) ≠
      Node.AND (Node.OR (Node.Leaf [97] [-1]) (Node.Leaf [98] [-1])) (Node.Leaf [99] [-1]) ∧
    build_bquery [Token.Keyword [97], Token.AND, Token.Keyword [98], Token.AND,
        Token.Keyword [99]] =
      some (Except.ok (Node.AND (Node.AND (Node.Leaf [97] [-1]) (Node.Leaf [98] [-1]))
        (Node.Leaf [99] [-1]))) ∧
    build_bquery [Token.Keyword [97], Token.OR, Token.Keyword [98], Token.OR,
        Token.Keyword [99]] =
      some (Except.ok (Node.OR (Node.OR (Node.Leaf [97] [-1]) (Node.Leaf [98] [-1]))
        (Node.Leaf [99] [-1]))) :=
  ⟨rfl, by decide, rfl, rfl⟩

/-- C8: keyword matching is case-insensitive: `kmp` lowercases both the
needle and the haystack before comparing, so its result is invariant under
lowercasing either input, and the compiled query `"Foo"` matches the text
`the FOO is here`. -/
theorem c8_case_insensitive :
    (∀ (table : List Int) (s1 s2 : List Nat),
      kmp table s1 s2 = kmp table (lowerBytes s1) (lowerBytes s2)) ∧
    matcherFrom [34, 70, 111, 111, 34] =
      some (Except.ok ⟨Node.Leaf [70, 111, 111] [-1, -1, -1]⟩) ∧
    matcherQuery ⟨Node.Leaf [70, 111, 111] [-1, -1, -1]⟩
        [116, 104, 101, 32, 70, 79, 79, 32, 105, 115, 32, 104, 101, 114, 101] =
      some true := by
  refine ⟨fun table s1 s2 => ?_, rfl, rfl⟩
  unfold kmp
  rw [lowerBytes_idem, lowerBytes_idem]

/-! ### The jump-table loop: dead fallback and table shape -/

theorem ktFall_some_eq (s1 : List Nat) (next : List Int) :
    ∀ (fuel : Nat) (j j1 : Int), ktFall s1 next fuel j = some j1 → j1 = j := by
  intro fuel j j1 h
  cases fuel with
  | zero => simp [ktFall] at h
  | succ fuel =>
    unfold ktFall at h
    split at h
    · cases hx : idxI s1 (j + 1) with
      | none => rw [hx] at h; simp at h
      | some b =>
        rw [hx] at h
        simp at h
        omega
    · simp at h
      omega

theorem ktFall_eval (s1 : List Nat) (next : List Int) (fuel : Nat) (j : Int)
    (h0 : -1 ≤ j) (h1 : j + 1 < (s1.length : Int)) :
    ktFall s1 next (fuel + 1) j = some j := by
  have hge : (0 : Int) ≤ j + 1 := by omega
  have hlt : (j + 1).toNat < s1.length := by omega
  unfold ktFall
  split
  · simp only [idxI_pos s1 (j + 1) hge hlt]
    simp
  · rfl

theorem ktLoop_eq_nofall (s1 : List Nat) :
    ∀ (fuel i : Nat) (j : Int) (next : List Int), -1 ≤ j → j + 2 ≤ (i : Int) →
      ktLoop s1 fuel i j next = ktLoopNF s1 fuel i j next := by
  intro fuel
  induction fuel with
  | zero => intro i j next _ _; rfl
  | succ fuel ih =>
    intro i j next h0 h1
    by_cases hi : i < s1.length
    · have hfall : ktFall s1 next (s1.length + 1) j = some j :=
        ktFall_eval s1 next s1.length j h0 (by omega)
      simp only [ktLoop, ktLoopNF, if_pos hi, hfall]
      cases hbi : s1[i]? with
      | none => simp
      | some bi =>
        cases hbj : idxI s1 (j + 1) with
        | none => simp
        | some bj =>
          simp only
          cases hs : setIdx next i (if bi = bj then j + 1 else j) with
          | none => simp
          | some next2 =>
            simp only
            exact ih (i + 1) (if bi = bj then j + 1 else j) next2
              (by split <;> omega) (by push_cast; split <;> omega)
    · simp only [ktLoop, ktLoopNF, if_neg hi]

/-- C10: the inner fallback loop of `kmp_table` is dead code — its guard
compares `s1[(j+1)]` with itself — so on every non-empty byte string
`kmp_table` computes exactly what the same procedure computes with the
fallback loop removed (a single greedy scan in which `j` increments only on
`s1[i] == s1[j+1]` and is otherwise carried forward unchanged). -/
theorem c10_fallback_loop_dead (s1 : List Nat) (h : s1 ≠ []) :
    kmp_table s1 = kmp_table_nofall s1 := by
  have hl : 0 < s1.length := List.length_pos.mpr h
  unfold kmp_table kmp_table_nofall
  rw [setIdx, if_pos (by simpa using hl)]
  exact ktLoop_eq_nofall s1 s1.length 1 (-1)
    ((List.replicate s1.length 0).set 0 (-1)) (by omega) (by omega)

/-- Witness for C10 at the concrete keyword `aab`. -/
theorem c10_witness :
    ([97, 97, 98] : List Nat) ≠ [] ∧ kmp_table [97, 97, 98] = kmp_table_nofall [97, 97, 98] :=
  ⟨by decide, c10_fallback_loop_dead [97, 97, 98] (by decide)⟩

/-! ### Shape of the tables `kmp_table` produces -/

theorem ktLoop_good (s1 : List Nat) :
    ∀ (fuel i : Nat) (j : Int) (next t : List Int),
      -1 ≤ j → j + 2 ≤ (i : Int) → next.length = s1.length → goodTable next →
      ktLoop s1 fuel i j next = some t → t.length = s1.length ∧ goodTable t := by
  intro fuel
  induction fuel with
  | zero =>
    intro i j next t _ _ hlen hg h
    unfold ktLoop at h
    split at h
    · simp at h
    · have ht := Option.some_inj.mp h
      subst ht
      exact ⟨hlen, hg⟩
  | succ fuel ih =>
    intro i j next t h0 h1 hlen hg h
    unfold ktLoop at h
    split at h
    · next hi =>
      cases hf : ktFall s1 next (s1.length + 1) j with
      | none => rw [hf] at h; simp at h
      | some j1 =>
        have hj1 : j1 = j := ktFall_some_eq s1 next _ j j1 hf
        subst hj1
        cases hbi : s1[i]? with
        | none => simp [hf, hbi] at h
        | some bi =>
          cases hbj : idxI s1 (j1 + 1) with
          | none => simp [hf, hbi, hbj] at h
          | some bj =>
            cases hs : setIdx next i (if bi = bj then j1 + 1 else j1) with
            | none => simp [hf, hbi, hbj, hs] at h
            | some next2 =>
              simp only [hf, hbi, hbj, hs] at h
              have hpair : i < next.length ∧ next2 = next.set i (if bi = bj then j1 + 1 else j1) := by
                unfold setIdx at hs
                split at hs
                · exact ⟨by assumption, (Option.some_inj.mp hs).symm⟩
                · simp at hs
              obtain ⟨hilt, hn2⟩ := hpair
              apply ih (i + 1) (if bi = bj then j1 + 1 else j1) next2 t
              · split <;> omega
              · split <;> omega
              · rw [hn2, List.length_set]; exact hlen
              · intro k v hk
                rw [hn2] at hk
                by_cases hki : k = i
                · subst hki
                  rw [List.getElem?_set_self hilt] at hk
                  obtain rfl := Option.some_inj.mp hk
                  constructor
                  · split <;> omega
                  · split <;> omega
                · rw [List.getElem?_set_ne (fun hh => hki hh.symm)] at hk
                  exact hg k v hk
              · exact h
    · have ht := Option.some_inj.mp h
      subst ht
      exact ⟨hlen, hg⟩

theorem kmp_table_good (s : List Nat) (t : List Int) (h : kmp_table s = some t) :
    s ≠ [] ∧ t.length = s.length ∧ goodTable t := by
  unfold kmp_table at h
  cases hs : setIdx (List.replicate s.length 0) 0 (-1) with
  | none => rw [hs] at h; simp at h
  | some next0 =>
    rw [hs] at h
    have hpos : 0 < s.length := by
      unfold setIdx at hs
      split at hs
      · simpa using (by assumption : 0 < (List.replicate s.length (0 : Int)).length)
      · simp at hs
    have hn0 : next0 = (List.replicate s.length (0 : Int)).set 0 (-1) := by
      unfold setIdx at hs
      split at hs
      · exact (Option.some_inj.mp hs).symm
      · simp at hs
    have hlen0 : next0.length = s.length := by rw [hn0]; simp
    have hg0 : goodTable next0 := by
      intro k v hk
      rw [hn0] at hk
      by_cases hk0 : k = 0
      · subst hk0
        rw [List.getElem?_set_self (by simpa using hpos)] at hk
        obtain rfl := Option.some_inj.mp hk
        constructor <;> simp
      · rw [List.getElem?_set_ne (fun hh => hk0 hh.symm), List.getElem?_replicate] at hk
        split at hk
        · obtain rfl := Option.some_inj.mp hk
          constructor <;> omega
        · simp at hk
    refine ⟨fun hnil => by rw [hnil] at hpos; simp at hpos, ?_⟩
    exact ktLoop_good s s.length 1 (-1) next0 t (by omega) (by omega) hlen0 hg0 h

/-! ### `kmp` never fails on a well-shaped table -/

theorem kmpFall_safe (t : List Int) (s1 : List Nat) (c : Nat)
    (hg : goodTable t) (hlen : t.length = s1.length) :
    ∀ (fuel : Nat) (j : Int), -1 ≤ j → j + 1 < (s1.length : Int) →
      (j + 1).toNat + 1 ≤ fuel →
      ∃ j1, kmpFall t s1 c fuel j = some j1 ∧ -1 ≤ j1 ∧ j1 ≤ j := by
  intro fuel
  induction fuel with
  | zero => intro j _ _ hf; omega
  | succ fuel ih =>
    intro j h0 h1 hf
    have hb : idxI s1 (j + 1) = some s1[(j + 1).toNat] :=
      idxI_pos s1 (j + 1) (by omega) (by omega)
    unfold kmpFall
    simp only [hb]
    by_cases hc : j > -1 ∧ s1[(j + 1).toNat] ≠ c
    · rw [if_pos hc]
      have hjt : j.toNat < t.length := by omega
      simp only [idxI_pos t j (by omega) hjt]
      obtain ⟨hb1, hb2⟩ := hg j.toNat t[j.toNat] (List.getElem?_eq_getElem hjt)
      obtain ⟨j1, hj1, hj1a, hj1b⟩ := ih t[j.toNat] hb1 (by omega) (by omega)
      exact ⟨j1, hj1, hj1a, by omega⟩
    · rw [if_neg hc]
      exact ⟨j, rfl, h0, le_refl j⟩

theorem kmpLoop_safe (t : List Int) (s1 : List Nat)
    (hg : goodTable t) (hlen : t.length = s1.length) :
    ∀ (s2 : List Nat) (j : Int), -1 ≤ j → j + 1 < (s1.length : Int) →
      ∃ b, kmpLoop t s1 s2 j = some b := by
  intro s2
  induction s2 with
  | nil => intro j _ _; exact ⟨false, rfl⟩
  | cons c rest ih =>
    intro j h0 h1
    obtain ⟨j1, hj1, hj1a, hj1b⟩ :=
      kmpFall_safe t s1 c hg hlen (s1.length + 1) j h0 h1 (by omega)
    have hb : idxI s1 (j1 + 1) = some s1[(j1 + 1).toNat] :=
      idxI_pos s1 (j1 + 1) (by omega) (by omega)
    unfold kmpLoop
    simp only [hj1, hb]
    by_cases hcb : c = s1[(j1 + 1).toNat]
    · rw [if_pos hcb]
      by_cases hend : j1 + 1 = (s1.length : Int) - 1
      · rw [if_pos hend]; exact ⟨true, rfl⟩
      · rw [if_neg hend]
        exact ih (j1 + 1) (by omega) (by omega)
    · rw [if_neg hcb]
      by_cases hend : j1 = (s1.length : Int) - 1
      · rw [if_pos hend]; exact ⟨true, rfl⟩
      · rw [if_neg hend]
        exact ih j1 (by omega) (by omega)

theorem kmp_safe (t : List Int) (kw : List Nat) (hk : kw ≠ [])
    (hlen : t.length = kw.length) (hg : goodTable t) (s2 : List Nat) :
    ∃ b, kmp t kw s2 = some b := by
  have hpos : 0 < kw.length := List.length_pos.mpr hk
  unfold kmp
  apply kmpLoop_safe t (lowerBytes kw) hg (by rw [hlen, lowerBytes_length])
  · omega
  · rw [lowerBytes_length]
    omega

/-! ### Every tree the parser returns is well-formed -/

theorem build_WF : ∀ fuel : Nat,
    (∀ ts n rst, build_and_group fuel ts = some (Except.ok (n, rst)) → NodeWF n) ∧
    (∀ ts n rst, build_or_group fuel ts = some (Except.ok (n, rst)) → NodeWF n) ∧
    (∀ left ts n rst, NodeWF left →
      build_or_group_loop fuel left ts = some (Except.ok (n, rst)) → NodeWF n) ∧
    (∀ ts n rst, build_query fuel ts = some (Except.ok (n, rst)) → NodeWF n) ∧
    (∀ left ts n rst, NodeWF left →
      build_query_loop fuel left ts = some (Except.ok (n, rst)) → NodeWF n) := by
  intro fuel
  induction fuel with
  | zero =>
    refine ⟨?_, ?_, ?_, ?_, ?_⟩
    · intro ts n rst h; simp [build_and_group] at h
    · intro ts n rst h; simp [build_or_group] at h
    · intro left ts n rst _ h; simp [build_or_group_loop] at h
    · intro ts n rst h; simp [build_query] at h
    · intro left ts n rst _ h; simp [build_query_loop] at h
  | succ fuel ih =>
    obtain ⟨ihAnd, ihOr, ihOrLoop, ihQ, ihQLoop⟩ := ih
    have hAnd : ∀ ts n rst, build_and_group (fuel + 1) ts = some (Except.ok (n, rst)) →
        NodeWF n := by
      intro ts n rst h
      cases ts with
      | nil => simp [build_and_group] at h
      | cons t ts0 =>
        cases t with
        | NOT =>
          cases hb : build_and_group fuel ts0 with
          | none => simp [build_and_group, hb] at h
          | some r =>
            cases r with
            | error e => simp [build_and_group, hb] at h
            | ok pr =>
              obtain ⟨node, rest2⟩ := pr
              simp only [build_and_group, hb] at h
              cases h
              exact ihAnd ts0 node rst hb
        | Keyword s =>
          cases hk : kmp_table s with
          | none => simp [build_and_group, hk] at h
          | some table =>
            simp only [build_and_group, hk] at h
            cases h
            exact hk
        | LParen =>
          cases hq : build_query fuel ts0 with
          | none => simp [build_and_group, hq] at h
          | some r =>
            cases r with
            | error e => simp [build_and_group, hq] at h
            | ok pr =>
              obtain ⟨expr, rest2⟩ := pr
              cases rest2 with
              | nil => simp [build_and_group, hq] at h
              | cons t2 rest3 =>
                cases t2 with
                | RParen =>
                  simp only [build_and_group, hq] at h
                  cases h
                  exact ihQ ts0 _ _ hq
                | AND => simp [build_and_group, hq] at h
                | OR => simp [build_and_group, hq] at h
                | NOT => simp [build_and_group, hq] at h
                | LParen => simp [build_and_group, hq] at h
                | Keyword s2 => simp [build_and_group, hq] at h
        | AND => simp [build_and_group] at h
        | OR => simp [build_and_group] at h
        | RParen => simp [build_and_group] at h
    have hOrLoop : ∀ left ts n rst, NodeWF left →
        build_or_group_loop (fuel + 1) left ts = some (Except.ok (n, rst)) → NodeWF n := by
      intro left ts n rst hwf h
      cases ts with
      | nil => simp only [build_or_group_loop] at h; cases h; exact hwf
      | cons t ts0 =>
        cases t with
        | AND =>
          cases hb : build_and_group fuel ts0 with
          | none => simp [build_or_group_loop, hb] at h
          | some r =>
            cases r with
            | error e => simp [build_or_group_loop, hb] at h
            | ok pr =>
              obtain ⟨right, rest2⟩ := pr
              simp only [build_or_group_loop, hb] at h
              exact ihOrLoop (Node.AND left right) rest2 n rst ⟨hwf, ihAnd ts0 right rest2 hb⟩ h
        | OR => simp only [build_or_group_loop] at h; cases h; exact hwf
        | NOT => simp only [build_or_group_loop] at h; cases h; exact hwf
        | LParen => simp only [build_or_group_loop] at h; cases h; exact hwf
        | RParen => simp only [build_or_group_loop] at h; cases h; exact hwf
        | Keyword s => simp only [build_or_group_loop] at h; cases h; exact hwf
    have hOr : ∀ ts n rst, build_or_group (fuel + 1) ts = some (Except.ok (n, rst)) →
        NodeWF n := by
      intro ts n rst h
      cases hb : build_and_group fuel ts with
      | none => simp [build_or_group, hb] at h
      | some r =>
        cases r with
        | error e => simp [build_or_group, hb] at h
        | ok pr =>
          obtain ⟨left, rest0⟩ := pr
          simp only [build_or_group, hb] at h
          exact ihOrLoop left rest0 n rst (ihAnd ts left rest0 hb) h
    have hQLoop : ∀ left ts n rst, NodeWF left →
        build_query_loop (fuel + 1) left ts = some (Except.ok (n, rst)) → NodeWF n := by
      intro left ts n rst hwf h
      cases ts with
      | nil => simp only [build_query_loop] at h; cases h; exact hwf
      | cons t ts0 =>
        cases t with
        | OR =>
          cases hb : build_or_group fuel ts0 with
          | none => simp [build_query_loop, hb] at h
          | some r =>
            cases r with
            | error e => simp [build_query_loop, hb] at h
            | ok pr =>
              obtain ⟨right, rest2⟩ := pr
              simp only [build_query_loop, hb] at h
              exact ihQLoop (Node.OR left right) rest2 n rst ⟨hwf, ihOr ts0 right rest2 hb⟩ h
        | AND => simp only [build_query_loop] at h; cases h; exact hwf
        | NOT => simp only [build_query_loop] at h; cases h; exact hwf
        | LParen => simp only [build_query_loop] at h; cases h; exact hwf
        | RParen => simp only [build_query_loop] at h; cases h; exact hwf
        | Keyword s => simp only [build_query_loop] at h; cases h; exact hwf
    have hQ : ∀ ts n rst, build_query (fuel + 1) ts = some (Except.ok (n, rst)) →
        NodeWF n := by
      intro ts n rst h
      cases hb : build_or_group fuel ts with
      | none => simp [build_query, hb] at h
      | some r =>
        cases r with
        | error e => simp [build_query, hb] at h
        | ok pr =>
          obtain ⟨left, rest0⟩ := pr
          simp only [build_query, hb] at h
          exact ihQLoop left rest0 n rst (ihOr ts left rest0 hb) h
    exact ⟨hAnd, hOr, hOrLoop, hQ, hQLoop⟩

theorem build_bquery_WF (ts : List Token) (n : Node)
    (h : build_bquery ts = some (Except.ok n)) : NodeWF n := by
  unfold build_bquery at h
  cases hb : build_query (3 * ts.length + 3) ts with
  | none => rw [hb] at h; simp at h
  | some r =>
    cases r with
    | error e => rw [hb] at h; simp at h
    | ok pr =>
      obtain ⟨n0, rst⟩ := pr
      simp only [hb] at h
      cases h
      exact (build_WF (3 * ts.length + 3)).2.2.2.1 ts _ rst hb

theorem parser_from_WF (s : List Nat) (q : Node)
    (h : parser_from s = some (Except.ok q)) : NodeWF q := by
  unfold parser_from at h
  cases ht : tokenise_query s with
  | ok ts => rw [ht] at h; exact build_bquery_WF ts q h
  | error e => rw [ht] at h; simp at h

/-! ### Evaluation over a well-formed tree never fails -/

theorem match_bquery_safe : ∀ q : Node, NodeWF q → ∀ s, ∃ b, match_bquery q s = some b := by
  intro q
  induction q with
  | AND a b iha ihb =>
    intro hwf s
    obtain ⟨hwa, hwb⟩ := hwf
    obtain ⟨ba, hba⟩ := iha hwa s
    obtain ⟨bb, hbb⟩ := ihb hwb s
    refine ⟨if ba then bb else false, ?_⟩
    unfold match_bquery
    simp only [hba]
    cases ba
    · simp
    · simpa using hbb
  | OR a b iha ihb =>
    intro hwf s
    obtain ⟨hwa, hwb⟩ := hwf
    obtain ⟨ba, hba⟩ := iha hwa s
    obtain ⟨bb, hbb⟩ := ihb hwb s
    refine ⟨if ba then true else bb, ?_⟩
    unfold match_bquery
    simp only [hba]
    cases ba
    · simpa using hbb
    · simp
  | NOT a iha =>
    intro hwf s
    obtain ⟨ba, hba⟩ := iha hwf s
    refine ⟨!ba, ?_⟩
    unfold match_bquery
    simp only [hba]
  | Leaf kw table =>
    intro hwf s
    obtain ⟨hk, hlen, hg⟩ := kmp_table_good kw table hwf
    exact kmp_safe table kw hk hlen hg s

/-- C9: for every handle successfully returned by `Matcher::from` and every
text, `Matcher::query` returns a boolean without failing: the evaluation over
the already-built tree never panics (in particular every array index `kmp`
performs on the stored jump table and on the lowercased needle and haystack
bytes stays in bounds). -/
theorem c9_matches_never_fails (s : List Nat) (m : Matcher)
    (h : matcherFrom s = some (Except.ok m)) (text : List Nat) :
    ∃ b, matcherQuery m text = some b := by
  unfold matcherFrom at h
  cases hp : parser_from s with
  | none => rw [hp] at h; simp at h
  | some r =>
    cases r with
    | error e => rw [hp] at h; simp at h
    | ok q =>
      simp only [hp] at h
      cases h
      exact match_bquery_safe q (parser_from_WF s q hp) text

/-- Witness for C9: the compiled query `"a"` evaluated on the text `a`. -/
theorem c9_witness :
    matcherFrom [34, 97, 34] = some (Except.ok ⟨Node.Leaf [97] [-1]⟩) ∧
    ∃ b, matcherQuery ⟨Node.Leaf [97] [-1]⟩ [97] = some b :=
  ⟨rfl, c9_matches_never_fails [34, 97, 34] ⟨Node.Leaf [97] [-1]⟩ rfl [97]⟩

end BqRust
